import Mathlib

/-!
Verification development for the serialbox2 serializer core.

The definitions below are a shallow embedding of the two source files of the
repository: `SerializerImpl.cpp` (serializer core: write/read contracts, JSON
metadata document, metadata update, legacy upgrade) and `Core/FieldMap.cpp`
(field-map JSON round trip).  Collaborator classes that are declared elsewhere
in the repository (MetaInfoMap, SavepointVector, FieldMetaInfo, BinaryArchive,
Version) are modelled from the specification where needed; each such
definition says so in its doc comment.
-/

namespace Serialbox

/-! ## JSON model

A model of the `nlohmann::json` values the source manipulates.  Objects keep
their entries sorted by key, as `nlohmann::json` stores object members in a
`std::map`.  JSON floating-point numbers are represented by an opaque integer
payload: none of the verified operations computes with the numeric value, they
only inspect the kind of the number (`is_number_integer` vs `is_number_float`)
and carry the payload through.
-/

inductive JSON where
  | null : JSON
  | bool (b : Bool) : JSON
  | int (n : Int) : JSON
  | float (payload : Int) : JSON
  | str (s : String) : JSON
  | arr (elems : List JSON) : JSON
  | obj (kvs : List (String × JSON)) : JSON

/-- Lookup of a key in an object member list (first match). -/
def lookupStr {α : Type} : List (String × α) → String → Option α
  | [], _ => none
  | (k', v) :: rest, k => if k' == k then some v else lookupStr rest k

/-- `m.count(k) ≠ 0` test on a member list. -/
def mapContains {α : Type} (m : List (String × α)) (k : String) : Bool :=
  m.any (fun kv => kv.1 == k)

/-- Lexicographic comparison of character lists: the `std::string`
`operator<` that orders `std::map` keys. -/
def strLtAux : List Char → List Char → Bool
  | [], [] => false
  | [], _ :: _ => true
  | _ :: _, [] => false
  | a :: as, b :: bs =>
    if a.toNat < b.toNat then true
    else if b.toNat < a.toNat then false
    else strLtAux as bs

/-- Strict lexicographic order on strings. -/
def strLt (a b : String) : Bool := strLtAux a.data b.data

/-- Sorted insertion into an object member list, overwriting an existing key:
the behaviour of `std::map`-backed `nlohmann::json` member assignment. -/
def mapInsertSorted {α : Type} : List (String × α) → String → α → List (String × α)
  | [], k, v => [(k, v)]
  | (k', v') :: rest, k, v =>
    if strLt k k' then (k, v) :: (k', v') :: rest
    else if k == k' then (k, v) :: rest
    else (k', v') :: mapInsertSorted rest k v

/-- `j[k]` on a const JSON value: member access, `null` when absent or when
`j` is not an object. -/
def jsonGet (j : JSON) (k : String) : JSON :=
  match j with
  | .obj kvs =>
    match lookupStr kvs k with
    | some v => v
    | none => .null
  | _ => .null

/-- `j.count(k)` as a Boolean: true iff `j` is an object containing key `k`. -/
def hasKey (j : JSON) (k : String) : Bool :=
  match j with
  | .obj kvs => mapContains kvs k
  | _ => false

/-- `j[k] = v` member assignment; assigning into `null` creates an object,
as `nlohmann::json::operator[]` does. -/
def jsonSet (j : JSON) (k : String) (v : JSON) : JSON :=
  match j with
  | .obj kvs => .obj (mapInsertSorted kvs k v)
  | _ => .obj [(k, v)]

/-- `j[i]` element access on an array; `null` otherwise. -/
def jsonIndex (j : JSON) (i : Nat) : JSON :=
  match j with
  | .arr xs => xs.getD i .null
  | _ => .null

/-- `j.size()`: element count of containers, 0 for null, 1 for scalars. -/
def jsonSize (j : JSON) : Nat :=
  match j with
  | .null => 0
  | .arr xs => xs.length
  | .obj kvs => kvs.length
  | _ => 1

/-- `j.empty()`: true for `null` and for empty containers. -/
def jsonIsNullOrEmpty (j : JSON) : Bool :=
  match j with
  | .null => true
  | .arr xs => xs.isEmpty
  | .obj kvs => kvs.isEmpty
  | _ => false

/-- Comparison of a JSON value against a string literal (`j == "float"`). -/
def jsonEqString (j : JSON) (s : String) : Bool :=
  match j with
  | .str s' => s' == s
  | _ => false

/-- The member list of an object (iteration order of `nlohmann::json`
object iterators); empty for every other value. -/
def jsonEntries (j : JSON) : List (String × JSON) :=
  match j with
  | .obj kvs => kvs
  | _ => []

/-- The element list of an array; empty for every other value. -/
def jsonElems (j : JSON) : List JSON :=
  match j with
  | .arr xs => xs
  | _ => []

/-! ## Core data model

These types mirror the serialbox data model.  `TypeID`, `MetaInfoMap`,
`SavepointImpl`, `SavepointVector`, `FieldMetaInfo` and the binary archive
field table are declared outside the two source files of the repository, so
their operations are modelled from the spec (sections 2 and 3 and the
per-component contracts of section 4); the doc comments say which part.
-/

/-- Element type tags (`serialbox::TypeID`, spec section 3). -/
inductive TypeID where
  | Boolean | Int32 | Int64 | Float32 | Float64 | Str
deriving DecidableEq, Repr

/-- Modelled from the spec: a metainfo value is a tagged scalar (section 3).
The legacy-upgrade and field-map operations verified here construct only
scalar values, so the homogeneous-array alternative of the full model is not
exercised and is omitted.  Float payloads are opaque, as in `JSON.float`. -/
inductive MetaInfoValue where
  | bool (b : Bool)
  | int32 (n : Int)
  | int64 (n : Int)
  | float32 (payload : Int)
  | float64 (payload : Int)
  | str (s : String)
deriving DecidableEq, Repr

/-- Modelled from the spec: a metainfo map is an ordered mapping from unique
string keys to tagged values, iteration order being insertion order
(section 3). -/
abbrev MetaInfoMap := List (String × MetaInfoValue)

namespace MetaInfoMap

/-- Modelled from the spec: `insert(k, v)` returns true iff inserted, false if
the key is already present, and never throws on duplicate (section 4.1). -/
def insert (m : MetaInfoMap) (k : String) (v : MetaInfoValue) : Bool × MetaInfoMap :=
  if mapContains m k then (false, m) else (true, m ++ [(k, v)])

/-- Insertion ignoring the success flag, as the call sites in the upgrade
path of `SerializerImpl.cpp` do. -/
def insertVal (m : MetaInfoMap) (k : String) (v : MetaInfoValue) : MetaInfoMap :=
  (insert m k v).2

def keys (m : MetaInfoMap) : List String := m.map Prod.fst

def contains (m : MetaInfoMap) (k : String) : Bool := mapContains m k

end MetaInfoMap

/-- Modelled from the spec: a savepoint is a name plus a metainfo map
(section 3). -/
structure SavepointImpl where
  name : String
  metaInfo : MetaInfoMap
deriving DecidableEq, Repr

/-- `addMetaInfo` of `SavepointImpl`, modelled from the spec: delegates to the
metainfo map insertion. -/
def SavepointImpl.addMetaInfo (sp : SavepointImpl) (k : String) (v : MetaInfoValue) :
    SavepointImpl :=
  ⟨sp.name, MetaInfoMap.insertVal sp.metaInfo k v⟩

/-- A field identifier `(name, id)` (spec section 3). -/
structure FieldID where
  name : String
  id : Nat
deriving DecidableEq, Repr

/-- Modelled from the spec: the savepoint vector is an ordered list of unique
savepoints plus, per savepoint, an ordered mapping from field name to field
identifier (section 4.3).  `savepoints` and `fields` are parallel lists. -/
structure SavepointVector where
  savepoints : List SavepointImpl
  fields : List (List (String × Nat))
deriving DecidableEq, Repr

namespace SavepointVector

/-- Modelled from the spec: `find(sp)` is a linear scan comparing savepoints;
the source encodes a miss as `-1`, modelled here as `none`. -/
def find (sv : SavepointVector) (sp : SavepointImpl) : Option Nat :=
  sv.savepoints.findIdx? (fun x => x == sp)

/-- Modelled from the spec: `insert(sp)` appends a new savepoint with an empty
field map and returns the new index (callers check `find` first). -/
def insert (sv : SavepointVector) (sp : SavepointImpl) : Nat × SavepointVector :=
  (sv.savepoints.length, ⟨sv.savepoints ++ [sp], sv.fields ++ [[]]⟩)

/-- Modelled from the spec: per-savepoint field presence test. -/
def hasField (sv : SavepointVector) (idx : Nat) (name : String) : Bool :=
  match sv.fields[idx]? with
  | some fs => fs.any (fun kv => kv.1 == name)
  | none => false

/-- Modelled from the spec: record a field identifier at savepoint `idx`. -/
def addField (sv : SavepointVector) (idx : Nat) (fid : FieldID) : SavepointVector :=
  ⟨sv.savepoints,
   (sv.fields.take idx) ++
     (match sv.fields[idx]? with
      | some fs => [fs ++ [(fid.name, fid.id)]]
      | none => []) ++
   (sv.fields.drop (idx + 1))⟩

/-- Modelled from the spec: `getFieldID(idx, name)`; the miss case is the
FieldNotAtSavepoint condition surfaced by the caller. -/
def getFieldID (sv : SavepointVector) (idx : Nat) (name : String) : Option FieldID :=
  match sv.fields[idx]? with
  | some fs => (lookupStr fs name).map (fun i => ⟨name, i⟩)
  | none => none

end SavepointVector

/-- Modelled from the spec: field metainfo is an element type, integer
dimensions, and an attached metainfo map (section 3). -/
structure FieldMetaInfo where
  type : TypeID
  dims : List Int
  metaInfo : MetaInfoMap
deriving DecidableEq, Repr

/-- The field map: name to field metainfo, backed by a `std::map` and hence
kept in sorted key order. -/
abbrev FieldMap := List (String × FieldMetaInfo)

/-- A record of the binary archive's per-field offset table
(spec section 3: `(offset, checksum)`). -/
structure FileOffset where
  offset : Int
  checksum : String
deriving DecidableEq, Repr

/-- The binary archive's field table: field name to offset table
(spec section 3, archive state). -/
abbrev FieldTable := List (String × List FileOffset)

/-- The open mode of a serializer (spec section 4.5). -/
inductive OpenModeKind where
  | Read | Write | Append
deriving DecidableEq, Repr

/-- The storage view as the serializer sees it: an element type and a
dimension list (the engine treats the view as opaque otherwise, spec
section 1). -/
structure StorageView where
  type : TypeID
  dims : List Int
deriving DecidableEq, Repr

/-- The error conditions raised by the verified operations (spec section 7).
The C++ source throws `serialbox::Exception` with a message; the constructors
below name the distinct conditions. -/
inductive Err where
  | SerializerNotWritable
  | SerializerNotReadable
  | FieldNotRegistered
  | TypeMismatch
  | ShapeMismatch
  | FieldAlreadyAtSavepoint
  | SavepointNotFound
  | FieldNotAtSavepoint
  | UpgradeReadOnly
  | TypeInferenceFailure (key : String)
  | VersionMismatch
  | PrefixMismatch
  | NodeNotFound (node : String)
  | NodeExists (node : String)
  | IllFormedNode (node : String)
  | JsonTypeError
  | AssertionFailure
  | IOError
deriving DecidableEq, Repr

/-- The in-memory state of a `SerializerImpl`: mode, global metainfo, field
map, savepoint vector, and the binary archive's field table (the archive
state the serializer owns through `archive_`). -/
structure SerializerImpl where
  mode : OpenModeKind
  globalMetaInfo : MetaInfoMap
  fieldMap : FieldMap
  savepointVector : SavepointVector
  archive : FieldTable
deriving DecidableEq, Repr

/-- `std::string name = j;` conversion: succeeds only on JSON strings. -/
def jsonAsString (j : JSON) : Except Err String :=
  match j with
  | .str s => .ok s
  | _ => .error .JsonTypeError

/-- `int(j)` conversion: numbers convert (float payloads are opaque and carry
through), booleans convert to 0/1, anything else throws. -/
def jsonAsInt (j : JSON) : Except Err Int :=
  match j with
  | .int n => .ok n
  | .float payload => .ok payload
  | .bool b => .ok (if b then 1 else 0)
  | _ => .error .JsonTypeError

/-! ## Serializer core: storage-view check, write, read

Embedded from `SerializerImpl.cpp`.  The backend archive write and the
on-disk metadata write are external effects of collaborator code; `WriteEnv`
abstracts them: `archiveWrite` is the `archive_->write` call (it returns the
field identifier and the updated field table, or the exception it throws) and
`metaDataWriteOk` tells whether `updateMetaData`'s file open succeeds.
-/

/-- `SerializerImpl::checkStorageView`: field registered, type equal,
dimensions equal (size check then element-wise `std::equal`). -/
def checkStorageView (s : SerializerImpl) (name : String) (storageView : StorageView) :
    Option Err :=
  match lookupStr s.fieldMap name with
  | none => some .FieldNotRegistered
  | some fieldInfo =>
    if fieldInfo.type != storageView.type then some .TypeMismatch
    else if storageView.dims.length != fieldInfo.dims.length
            || !(storageView.dims == fieldInfo.dims) then some .ShapeMismatch
    else none

/-- External effects of `SerializerImpl::write`: the backend archive write and
the success of the metadata file open in `updateMetaData`. -/
structure WriteEnv where
  archiveWrite : FieldTable → String → StorageView → Except Err (FieldID × FieldTable)
  metaDataWriteOk : Bool

/-- Steps 3 to 6 of `SerializerImpl::write`, after the savepoint index is
determined: duplicate-field check, archive write, `addField`, metadata
update.  The first component of the result is the serializer's in-memory
state when the call returns or when the exception in the second component
propagates (C++ exceptions do not roll the object back). -/
def writeSteps3to6 (s : SerializerImpl) (env : WriteEnv) (name : String)
    (storageView : StorageView) (savepointIdx : Nat) : SerializerImpl × Option Err :=
  if SavepointVector.hasField s.savepointVector savepointIdx name then
    (s, some .FieldAlreadyAtSavepoint)
  else
    match env.archiveWrite s.archive name storageView with
    | .error e => (s, some e)
    | .ok (fieldID, archive2) =>
      let s2 : SerializerImpl :=
        ⟨s.mode, s.globalMetaInfo, s.fieldMap,
         SavepointVector.addField s.savepointVector savepointIdx fieldID, archive2⟩
      if env.metaDataWriteOk then (s2, none) else (s2, some .IOError)

/-- `SerializerImpl::write(name, savepoint, storageView)`: mode gate,
storage-view check, savepoint lookup/registration, then steps 3 to 6. -/
def SerializerImpl.write (s : SerializerImpl) (env : WriteEnv) (name : String)
    (savepoint : SavepointImpl) (storageView : StorageView) : SerializerImpl × Option Err :=
  if s.mode == .Read then (s, some .SerializerNotWritable)
  else
    match checkStorageView s name storageView with
    | some e => (s, some e)
    | none =>
      match SavepointVector.find s.savepointVector savepoint with
      | some savepointIdx => writeSteps3to6 s env name storageView savepointIdx
      | none =>
        let p := SavepointVector.insert s.savepointVector savepoint
        writeSteps3to6
          ⟨s.mode, s.globalMetaInfo, s.fieldMap, p.2, s.archive⟩ env name storageView p.1

/-- `SerializerImpl::read(name, savepoint, storageView)`: mode gate,
storage-view check, savepoint lookup, field-identifier lookup, then the
archive read is invoked with the recorded identifier; the embedding returns
that identifier (the delegation target). -/
def SerializerImpl.read (s : SerializerImpl) (name : String) (savepoint : SavepointImpl)
    (storageView : StorageView) : Except Err FieldID :=
  if s.mode != .Read then .error .SerializerNotReadable
  else
    match checkStorageView s name storageView with
    | some e => .error e
    | none =>
      match SavepointVector.find s.savepointVector savepoint with
      | none => .error .SavepointNotFound
      | some savepointIdx =>
        match SavepointVector.getFieldID s.savepointVector savepointIdx name with
        | none => .error .FieldNotAtSavepoint
        | some fieldID => .ok fieldID

/-! ## Serializer core: the top-level metadata document -/

/-- `SerializerImpl::toJSON`: the top-level metadata document, built by five
member assignments in source order.  The version constants come from
`Version.h` (not part of the two source files), so they are parameters. -/
def SerializerImpl.toJSON (major minor patch : Int) (pfx : String)
    (globalMetaInfoJson savepointVectorJson fieldMapJson : JSON) : JSON :=
  jsonSet
    (jsonSet
      (jsonSet
        (jsonSet
          (jsonSet .null "serialbox_version" (.int (100 * major + 10 * minor + patch)))
          "prefix" (.str pfx))
        "global_meta_info" globalMetaInfoJson)
      "savepoint_vector" savepointVectorJson)
    "field_map" fieldMapJson

/-- The sub-documents `constructMetaDataFromJson` hands to the collaborator
parsers (`MetaInfoMap::fromJSON` etc. live outside the two source files). -/
structure ParsedMetaData where
  globalMetaInfoNode : Option JSON
  savepointVectorNode : Option JSON
  fieldMapNode : Option JSON

/-- The optional-node pattern of `constructMetaDataFromJson`:
`if(jsonNode.count(k)) parse(jsonNode[k])`. -/
def optNode (doc : JSON) (k : String) : Option JSON :=
  if hasKey doc k then some (jsonGet doc k) else none

/-- `SerializerImpl::constructMetaDataFromJson`, from the point where the
document has been parsed from disk: consistency gates on
`serialbox_version` and `prefix`, then the three optional sub-documents.
`Version::match` is declared outside the two source files and is passed in
as the predicate `versionMatch`. -/
def constructMetaDataFromJson (versionMatch : Int → Bool) (pfx : String) (doc : JSON) :
    Except Err ParsedMetaData :=
  if !hasKey doc "serialbox_version" then .error (.NodeNotFound "serialbox_version")
  else
    match jsonAsInt (jsonGet doc "serialbox_version") with
    | .error e => .error e
    | .ok v =>
      if !versionMatch v then .error .VersionMismatch
      else if !hasKey doc "prefix" then .error (.NodeNotFound "prefix")
      else if !jsonEqString (jsonGet doc "prefix") pfx then .error .PrefixMismatch
      else .ok ⟨optNode doc "global_meta_info", optNode doc "savepoint_vector",
                optNode doc "field_map"⟩

/-! ## Serializer core: `updateMetaData` as a file-system trace -/

/-- File-system operations performed by metadata updates. -/
inductive FSOp where
  | openTrunc (path : String)
  | writeDoc (path : String) (doc : JSON)
  | closeFile (path : String)
  | writeTempFile (path : String) (doc : JSON)
  | flushFile (path : String)
  | renameFile (src : String) (dst : String)
  | archiveUpdate

/-- `SerializerImpl::updateMetaData`: opens the metadata file itself with
`std::ios::out | std::ios::trunc`, streams the document into it, closes it,
then calls `archive_->updateMetaData()`. -/
def updateMetaDataOps (metaDataFile : String) (doc : JSON) : List FSOp :=
  [.openTrunc metaDataFile, .writeDoc metaDataFile doc, .closeFile metaDataFile,
   .archiveUpdate]

/-- Is this operation a rename onto `target`? -/
def FSOp.isRenameTo (target : String) : FSOp → Bool
  | .renameFile _ dst => dst == target
  | _ => false

/-- Is this operation any rename at all? -/
def FSOp.isRename : FSOp → Bool
  | .renameFile _ _ => true
  | _ => false

/-- Does this operation write into `target` directly (truncating open or
document write on the target path)? -/
def FSOp.isDirectWrite (target : String) : FSOp → Bool
  | .openTrunc p => p == target
  | .writeDoc p _ => p == target
  | _ => false

/-- The protocol the spec claims for metadata updates, in the claim's words:
the document reaches `target` through a rename, and the target is never
opened or written directly. -/
def atomicTempRenameProtocol (target : String) (ops : List FSOp) : Bool :=
  ops.any (FSOp.isRenameTo target) && !(ops.any (FSOp.isDirectWrite target))

/-! ## FieldMap JSON round trip

Embedded from `Core/FieldMap.cpp`.  `FieldMetaInfo::toJSON` and the
`FieldMetaInfo` constructor from JSON live outside the two source files, so
the encoder `enc` and decoder `dec` are parameters.
-/

namespace FieldMap

/-- `FieldMap::insert(name, metaInfo)` as used by `fromJSON`: returns false
and leaves the map unchanged when the key exists, otherwise inserts into the
underlying `std::map` (sorted order).  Modelled from the spec, section 4.2. -/
def insertFM (m : FieldMap) (k : String) (fieldInfo : FieldMetaInfo) : Bool × FieldMap :=
  if mapContains m k then (false, m) else (true, mapInsertSorted m k fieldInfo)

/-- The loop body of `FieldMap::toJSON`:
`jsonNode["field_map"][it->first] = it->second.toJSON()`. -/
def toJSONStep (enc : FieldMetaInfo → JSON) (acc : JSON) (kv : String × FieldMetaInfo) : JSON :=
  jsonSet acc "field_map" (jsonSet (jsonGet acc "field_map") kv.1 (enc kv.2))

/-- `FieldMap::toJSON`: for each field, in map iteration order,
`jsonNode["field_map"][name] = metaInfo.toJSON()`; an empty map yields the
default (null) document. -/
def toJSON (enc : FieldMetaInfo → JSON) (m : FieldMap) : JSON :=
  m.foldl (toJSONStep enc) .null

/-- The insertion loop of `FieldMap::fromJSON`: decode each member of the
`field_map` node and insert it; a decoder exception is wrapped as an
ill-formed-node error and a false insertion result as a node-exists error. -/
def insertAll (dec : JSON → Except Err FieldMetaInfo) :
    FieldMap → List (String × JSON) → Except Err FieldMap
  | m, [] => .ok m
  | m, (k, v) :: rest =>
    match dec v with
    | .error _ => .error (.IllFormedNode k)
    | .ok fieldInfo =>
      match insertFM m k fieldInfo with
      | (false, _) => .error (.NodeExists k)
      | (true, m2) => insertAll dec m2 rest

/-- `FieldMap::fromJSON`: clear, accept null or empty documents as the empty
map, reject documents without the `field_map` node, then run the insertion
loop over the node's members. -/
def fromJSON (dec : JSON → Except Err FieldMetaInfo) (j : JSON) : Except Err FieldMap :=
  if jsonIsNullOrEmpty j then .ok []
  else if !hasKey j "field_map" then .error (.NodeNotFound "field_map")
  else insertAll dec [] (jsonEntries (jsonGet j "field_map"))

end FieldMap

/-! ## Legacy upgrade

Embedded from `SerializerImpl::upgradeMetaData`.  The file-system facts the
gate consults (existence and last-write times of `<prefix>.json` and
`MetaData-<prefix>.json`), the parsed legacy document, and the success of the
best-effort persist are collected in `UpgradeEnv`.
-/

/-- The float-type guess of `upgradeMetaData`: Float64 unless the fields
table is present, non-empty, and its entry 0 has `__elementtype` equal to
`"float"`. -/
def inferGlobalFloatType (oldJson : JSON) : TypeID :=
  if hasKey oldJson "FieldsTable" && decide (0 < jsonSize (jsonGet oldJson "FieldsTable")) then
    if jsonEqString (jsonGet (jsonIndex (jsonGet oldJson "FieldsTable") 0) "__elementtype")
        "float"
    then TypeID.Float32 else TypeID.Float64
  else TypeID.Float64

/-- The type-inference chain the upgrade applies to a JSON value (the same
`is_string` / `is_boolean` / `is_number_integer` / `is_number_float` chain
appears for global metainfo, field metainfo and savepoint metainfo); the
fall-through throws naming the offending key. -/
def inferMetaInfoValue (floatType : TypeID) (key : String) (j : JSON) :
    Except Err MetaInfoValue :=
  match j with
  | .str s => .ok (.str s)
  | .bool b => .ok (.bool b)
  | .int n => .ok (.int32 n)
  | .float payload =>
    .ok (if floatType == TypeID.Float32 then .float32 payload else .float64 payload)
  | _ => .error (.TypeInferenceFailure key)

/-- The `GlobalMetainfo` loop: keys starting with `__` are skipped, all
others are inserted with the inferred tag. -/
def upgradeGlobalMetaInfoEntries (floatType : TypeID) :
    MetaInfoMap → List (String × JSON) → Except Err MetaInfoMap
  | m, [] => .ok m
  | m, (k, v) :: rest =>
    if k.startsWith "__" then upgradeGlobalMetaInfoEntries floatType m rest
    else
      match inferMetaInfoValue floatType k v with
      | .error e => .error e
      | .ok mv => upgradeGlobalMetaInfoEntries floatType (MetaInfoMap.insertVal m k mv) rest

/-- `__elementtype` translation of the fields-table upgrade. -/
def translateElementType (elementtype : String) : TypeID :=
  if elementtype == "int" then TypeID.Int32
  else if elementtype == "float" then TypeID.Float32
  else if elementtype == "double" then TypeID.Float64
  else TypeID.Float64

/-- The field-metainfo loop of the fields-table upgrade: every member of the
entry is inserted (the source applies no key filtering here). -/
def insertFieldMetaInfo (floatType : TypeID) :
    MetaInfoMap → List (String × JSON) → Except Err MetaInfoMap
  | m, [] => .ok m
  | m, (k, v) :: rest =>
    match inferMetaInfoValue floatType k v with
    | .error e => .error e
    | .ok mv => insertFieldMetaInfo floatType (MetaInfoMap.insertVal m k mv) rest

/-- One entry of the fields-table upgrade: name, element type, dimensions
from `__isize`, `__jsize`, `__ksize` and optionally `__lsize`, and the
field-local metainfo map. -/
def upgradeFieldEntry (floatType : TypeID) (fieldInfo : JSON) :
    Except Err (String × TypeID × List Int × MetaInfoMap) :=
  match jsonAsString (jsonGet fieldInfo "__name") with
  | .error e => .error e
  | .ok name =>
    match jsonAsString (jsonGet fieldInfo "__elementtype") with
    | .error e => .error e
    | .ok elementtype =>
      match jsonAsInt (jsonGet fieldInfo "__isize") with
      | .error e => .error e
      | .ok isize =>
        match jsonAsInt (jsonGet fieldInfo "__jsize") with
        | .error e => .error e
        | .ok jsize =>
          match jsonAsInt (jsonGet fieldInfo "__ksize") with
          | .error e => .error e
          | .ok ksize =>
            match
              ((if hasKey fieldInfo "__lsize" then
                match jsonAsInt (jsonGet fieldInfo "__lsize") with
                | .error e => .error e
                | .ok lsize => .ok [isize, jsize, ksize, lsize]
              else .ok [isize, jsize, ksize]) : Except Err (List Int)) with
            | .error e => .error e
            | .ok dims =>
              match insertFieldMetaInfo floatType [] (jsonEntries fieldInfo) with
              | .error e => .error e
              | .ok metaInfo => .ok (name, translateElementType elementtype, dims, metaInfo)

/-- The fields-table loop: upgrade each entry and register it in the field
map (the source ignores the insertion result). -/
def upgradeFieldsTable (floatType : TypeID) :
    FieldMap → List JSON → Except Err FieldMap
  | fm, [] => .ok fm
  | fm, fieldInfo :: rest =>
    match upgradeFieldEntry floatType fieldInfo with
    | .error e => .error e
    | .ok (name, type, dims, metaInfo) =>
      upgradeFieldsTable floatType (FieldMap.insertFM fm name ⟨type, dims, metaInfo⟩).2 rest

/-- The savepoint-metainfo loop of the offset-table upgrade: keys starting
with `__` are skipped, the rest are added with the inferred tag. -/
def upgradeSavepointMeta (floatType : TypeID) :
    SavepointImpl → List (String × JSON) → Except Err SavepointImpl
  | sp, [] => .ok sp
  | sp, (k, v) :: rest =>
    if k.startsWith "__" then upgradeSavepointMeta floatType sp rest
    else
      match inferMetaInfoValue floatType k v with
      | .error e => .error e
      | .ok mv => upgradeSavepointMeta floatType (sp.addMetaInfo k mv) rest

/-- First index in an offset table whose checksum matches. -/
def findChecksumIdx (tbl : List FileOffset) (chk : String) : Option Nat :=
  tbl.findIdx? (fun fo => fo.checksum == chk)

/-- One `(fieldname, [offset, checksum])` member of an `__offsets` node: the
dedup-or-append logic that mimics the binary archive's write operation.  The
`CHECK_NE` / `CHECK_EQ` assertions of the source abort the process; this is
modelled as the assertion-failure error. -/
def upgradeOneOffset (fieldTable : FieldTable) (fieldname : String) (v : JSON) :
    Except Err (Nat × FieldTable) :=
  match jsonAsInt (jsonIndex v 0) with
  | .error e => .error e
  | .ok offset =>
    match jsonAsString (jsonIndex v 1) with
    | .error e => .error e
    | .ok chk =>
      match lookupStr fieldTable fieldname with
      | some tbl =>
        match findChecksumIdx tbl chk with
        | some i => .ok (i, fieldTable)
        | none =>
          if offset == 0 then .error .AssertionFailure
          else .ok (tbl.length, mapInsertSorted fieldTable fieldname (tbl ++ [⟨offset, chk⟩]))
      | none =>
        if offset != 0 then .error .AssertionFailure
        else .ok (0, mapInsertSorted fieldTable fieldname [⟨offset, chk⟩])

/-- The `__offsets` loop of one offset-table entry: process each field and
record the resulting identifier at the current savepoint. -/
def upgradeOffsets (floatType : TypeID) (savepointIdx : Nat) :
    FieldTable → SavepointVector → List (String × JSON) →
    Except Err (FieldTable × SavepointVector)
  | ft, sv, [] => .ok (ft, sv)
  | ft, sv, (fieldname, v) :: rest =>
    match upgradeOneOffset ft fieldname v with
    | .error e => .error e
    | .ok (id, ft2) =>
      upgradeOffsets floatType savepointIdx ft2
        (SavepointVector.addField sv savepointIdx ⟨fieldname, id⟩) rest

/-- One entry of the `OffsetTable` upgrade: build the savepoint from
`__name` and the non-reserved keys, register it, then process `__offsets`. -/
def upgradeOffsetTableEntry (floatType : TypeID) (ft : FieldTable) (sv : SavepointVector)
    (entry : JSON) : Except Err (FieldTable × SavepointVector) :=
  match jsonAsString (jsonGet entry "__name") with
  | .error e => .error e
  | .ok name =>
    match upgradeSavepointMeta floatType ⟨name, []⟩ (jsonEntries entry) with
    | .error e => .error e
    | .ok savepoint =>
      let p := SavepointVector.insert sv savepoint
      upgradeOffsets floatType p.1 ft p.2 (jsonEntries (jsonGet entry "__offsets"))

/-- The `OffsetTable` loop. -/
def upgradeOffsetTable (floatType : TypeID) :
    FieldTable → SavepointVector → List JSON → Except Err (FieldTable × SavepointVector)
  | ft, sv, [] => .ok (ft, sv)
  | ft, sv, entry :: rest =>
    match upgradeOffsetTableEntry floatType ft sv entry with
    | .error e => .error e
    | .ok (ft2, sv2) => upgradeOffsetTable floatType ft2 sv2 rest

/-- The state `upgradeMetaData` builds in memory. -/
structure UpgradeResult where
  globalMetaInfo : MetaInfoMap
  fieldMap : FieldMap
  savepointVector : SavepointVector
  fieldTable : FieldTable
deriving DecidableEq, Repr

/-- The body of the upgrade, after the gate has decided an upgrade is due:
float-type inference, global metainfo, fields table, offset table. -/
def upgradeBody (oldJson : JSON) : Except Err UpgradeResult :=
  let floatType := inferGlobalFloatType oldJson
  match
    (if hasKey oldJson "GlobalMetainfo" then
      upgradeGlobalMetaInfoEntries floatType [] (jsonEntries (jsonGet oldJson "GlobalMetainfo"))
    else .ok []) with
  | .error e => .error e
  | .ok gmi =>
    match
      (if hasKey oldJson "FieldsTable" then
        upgradeFieldsTable floatType [] (jsonElems (jsonGet oldJson "FieldsTable"))
      else .ok []) with
    | .error e => .error e
    | .ok fm =>
      match
        (if hasKey oldJson "OffsetTable" then
          upgradeOffsetTable floatType [] ⟨[], []⟩ (jsonElems (jsonGet oldJson "OffsetTable"))
        else .ok ([], ⟨[], []⟩)) with
      | .error e => .error e
      | .ok (ft, sv) => .ok ⟨gmi, fm, sv, ft⟩

/-- File-system facts and external-effect outcomes `upgradeMetaData`
consults: existence and last-write times of `<prefix>.json` (the legacy
document) and `MetaData-<prefix>.json`, the parsed legacy document, and
whether the best-effort persist at the end succeeds. -/
structure UpgradeEnv where
  oldFileExists : Bool
  metaDataFileExists : Bool
  oldFileTime : Nat
  metaDataFileTime : Nat
  oldJson : JSON
  persistOk : Bool

/-- The `try { updateMetaData(); } catch(...)` at the end of the upgrade:
the error, if any, that the persist attempt would raise. -/
def tryPersistUpgraded (persistOk : Bool) : Option Err :=
  if persistOk then none else some .IOError

/-- `SerializerImpl::upgradeMetaData`: no legacy file, or a legacy file
strictly older than the current metadata file, means no upgrade (`false`);
otherwise a non-Read mode is rejected, the body runs, and the persist
failure is caught and logged (non-fatal).  Returns whether an upgrade
happened, and the built state when it did. -/
def upgradeMetaData (mode : OpenModeKind) (env : UpgradeEnv) :
    Except Err (Bool × Option UpgradeResult) :=
  if !env.oldFileExists then .ok (false, none)
  else if env.metaDataFileExists && decide (env.oldFileTime < env.metaDataFileTime) then
    .ok (false, none)
  else if mode != .Read then .error .UpgradeReadOnly
  else
    match upgradeBody env.oldJson with
    | .error e => .error e
    | .ok res =>
      match tryPersistUpgraded env.persistOk with
      | _ => .ok (true, some res)

/-- Which branch the `SerializerImpl` constructor takes after
`upgradeMetaData`: `fromJson` runs `constructMetaDataFromJson` and
`constructArchive`; `upgradedLegacy` skips them. -/
inductive ConstructionPath where
  | upgradedLegacy | fromJson
deriving DecidableEq, Repr

/-- The `if(!upgradeMetaData()) { constructMetaDataFromJson(); constructArchive(...); }`
dispatch of the `SerializerImpl` constructor. -/
def serializerConstructPath (mode : OpenModeKind) (env : UpgradeEnv) :
    Except Err ConstructionPath :=
  match upgradeMetaData mode env with
  | .error e => .error e
  | .ok (true, _) => .ok .upgradedLegacy
  | .ok (false, _) => .ok .fromJson

/-! ## Statements of the spec's wording, and concrete inputs

The two `...Elementtype...` definitions below follow the wording of the claim
(respectively of its amendment) about the legacy float-tag inference, to be
compared with `inferGlobalFloatType`, which is embedded from the source.
The `cN...` definitions are concrete inputs used by witnesses and
counterexamples.
-/

/-- The claim's wording: at least one entry (any entry) of `FieldsTable` has
`__elementtype` equal to `"float"`. -/
def anyEntryElementtypeFloat (oldJson : JSON) : Bool :=
  (jsonElems (jsonGet oldJson "FieldsTable")).any
    (fun e => jsonEqString (jsonGet e "__elementtype") "float")

/-- The amended wording: `FieldsTable` is non-empty and its first entry has
`__elementtype` equal to `"float"`. -/
def firstEntryElementtypeFloat (oldJson : JSON) : Bool :=
  match jsonElems (jsonGet oldJson "FieldsTable") with
  | [] => false
  | e :: _ => jsonEqString (jsonGet e "__elementtype") "float"

/-- A legacy document whose fields table has a `"double"` first entry and a
`"float"` second entry. -/
def c3LegacyDoc : JSON :=
  .obj [("FieldsTable", .arr
    [.obj [("__elementtype", .str "double")],
     .obj [("__elementtype", .str "float")]])]

/-- A concrete serializer metadata document. -/
def c2Doc : JSON := .obj [("prefix", .str "field")]

/-- A decoder for C9's concrete run (its behaviour is irrelevant: the claim
is about the document gate). -/
def c9Dec : JSON → Except Err FieldMetaInfo := fun _ => .ok ⟨TypeID.Float64, [], []⟩

/-- A non-empty document without the `field_map` key. -/
def c9Doc : JSON := .obj [("x", .int 1)]

/-- A legacy fields-table entry with only the reserved keys (member order is
the sorted order `nlohmann::json` iterates in). -/
def c4Entry : JSON :=
  .obj [("__elementtype", .str "double"), ("__isize", .int 2), ("__jsize", .int 2),
        ("__ksize", .int 1), ("__name", .str "u")]

/-- A serializer opened for writing with one registered field `f` of shape
`[2]` and no savepoints. -/
def c1Serializer : SerializerImpl :=
  ⟨.Write, [], [("f", ⟨TypeID.Float64, [2], []⟩)], ⟨[], []⟩, []⟩

/-- A storage view matching the registration of `f`. -/
def c1View : StorageView := ⟨TypeID.Float64, [2]⟩

/-- External effects for C1's concrete run: the archive write succeeds
without touching the field table, the metadata file write fails. -/
def c1Env : WriteEnv := ⟨fun ft n _ => .ok (⟨n, 0⟩, ft), false⟩

/-- The savepoint of C1's concrete run. -/
def c1Savepoint : SavepointImpl := ⟨"s1", []⟩

/-- A storage view whose type contradicts the registration of `f`. -/
def c1ViewBad : StorageView := ⟨TypeID.Float32, [2]⟩

/-- A serializer in Write mode whose savepoint `s1` already holds `f`. -/
def c1SerializerDup : SerializerImpl :=
  ⟨.Write, [], [("f", ⟨TypeID.Float64, [2], []⟩)], ⟨[⟨"s1", []⟩], [[("f", 0)]]⟩, []⟩

/-- External effects whose archive write fails. -/
def c1EnvFail : WriteEnv := ⟨fun _ _ _ => .error .IOError, true⟩

/-- An upgrade environment: legacy document present, no current metadata,
empty legacy document, persist succeeding. -/
def c6Env : UpgradeEnv := ⟨true, false, 0, 0, .null, true⟩

/-- The same environment with the persist failing. -/
def c6EnvNoPersist : UpgradeEnv := ⟨true, false, 0, 0, .null, false⟩

/-- An upgrade environment where both documents exist and the legacy one is
strictly older. -/
def c10Env : UpgradeEnv := ⟨true, true, 5, 9, .null, true⟩

/-- A serializer open for reading, with field `f` registered, savepoint `s1`
holding `f` with identifier 3, and savepoint `s2` holding nothing. -/
def c7Serializer : SerializerImpl :=
  ⟨.Read, [], [("f", ⟨TypeID.Float64, [2], []⟩)],
   ⟨[⟨"s1", []⟩, ⟨"s2", []⟩], [[("f", 3)], []]⟩, []⟩

/-- A savepoint absent from `c7Serializer`. -/
def c7Missing : SavepointImpl := ⟨"s3", []⟩

/-- A version-compatibility predicate for C5's concrete run. -/
def c5VersionMatch : Int → Bool := fun v => v == 212

/-- A metadata document with a wrong version. -/
def c5DocBadVersion : JSON :=
  .obj [("prefix", .str "p"), ("serialbox_version", .int 1)]

/-- A metadata document with a good version but wrong prefix. -/
def c5DocBadPrefix : JSON :=
  .obj [("prefix", .str "q"), ("serialbox_version", .int 212)]

/-- A document with no `serialbox_version` node. -/
def c5DocNoVersion : JSON := .obj [("prefix", .str "p")]

/-- Two concrete field metainfo records for C8's concrete run. -/
def c8FmU : FieldMetaInfo := ⟨TypeID.Float64, [2, 3], []⟩

/-- See `c8FmU`. -/
def c8FmV : FieldMetaInfo := ⟨TypeID.Int32, [1], []⟩

/-- A concrete field map with two fields in sorted key order. -/
def c8Map : FieldMap := [("u", c8FmU), ("v", c8FmV)]

/-- A concrete `FieldMetaInfo` encoder, injective on the two records of
`c8Map`. -/
def c8Enc : FieldMetaInfo → JSON := fun fi => .bool (fi.type == TypeID.Int32)

/-- The matching decoder. -/
def c8Dec : JSON → Except Err FieldMetaInfo :=
  fun j => .ok (match j with | .bool true => c8FmV | _ => c8FmU)

/-! ## Helper lemmas -/

theorem mapContains_cons {α : Type} (kv : String × α) (rest : List (String × α)) (k : String) :
    mapContains (kv :: rest) k = ((kv.1 == k) || mapContains rest k) := by
  simp [mapContains]

theorem mapContains_eq_false {α : Type} (m : List (String × α)) (k : String)
    (h : ∀ a ∈ m, a.1 ≠ k) : mapContains m k = false := by
  induction m with
  | nil => rfl
  | cons kv rest ih =>
    rw [mapContains_cons]
    have h1 : (kv.1 == k) = false := beq_eq_false_iff_ne.mpr (h kv (by simp))
    have h2 : mapContains rest k = false := ih (fun a ha => h a (by simp [ha]))
    simp [h1, h2]

theorem mapContains_eq_isSome {α : Type} (m : List (String × α)) (k : String) :
    mapContains m k = (lookupStr m k).isSome := by
  induction m with
  | nil => rfl
  | cons kv rest ih =>
    rw [mapContains_cons]
    by_cases h : kv.1 == k
    · simp [lookupStr, h]
    · simp only [Bool.not_eq_true] at h
      simp [lookupStr, h, ih]

theorem strLtAux_asymm (as : List Char) :
    ∀ bs, strLtAux as bs = true → strLtAux bs as = false := by
  induction as with
  | nil =>
    intro bs h
    cases bs with
    | nil => simp [strLtAux] at h
    | cons b bs => rfl
  | cons a as ih =>
    intro bs h
    cases bs with
    | nil => exact absurd h (by simp [strLtAux])
    | cons b bs =>
      rw [strLtAux] at h
      rw [strLtAux]
      by_cases h1 : a.toNat < b.toNat
      · rw [if_neg (by omega), if_pos h1]
      · by_cases h2 : b.toNat < a.toNat
        · rw [if_neg h1, if_pos h2] at h
          exact absurd h (by simp)
        · rw [if_neg h1, if_neg h2] at h
          rw [if_neg h2, if_neg h1]
          exact ih bs h

theorem strLtAux_irrefl (as : List Char) : strLtAux as as = false := by
  induction as with
  | nil => rfl
  | cons a rest ih => simp [strLtAux, ih]

theorem strLt_asymm {a b : String} (h : strLt a b = true) : strLt b a = false :=
  strLtAux_asymm a.data b.data h

theorem strLt_ne {a b : String} (h : strLt a b = true) : a ≠ b := by
  intro he
  rw [he, strLt, strLtAux_irrefl] at h
  exact absurd h (by simp)

theorem mapInsertSorted_append {α : Type} (es : List (String × α)) (k : String) (v : α)
    (h : ∀ kv ∈ es, strLt kv.1 k = true) :
    mapInsertSorted es k v = es ++ [(k, v)] := by
  induction es with
  | nil => rfl
  | cons kv rest ih =>
    have hk : strLt kv.1 k = true := h kv (by simp)
    have h1 : strLt k kv.1 = false := strLt_asymm hk
    have h2 : (k == kv.1) = false := beq_eq_false_iff_ne.mpr (Ne.symm (strLt_ne hk))
    simp [mapInsertSorted, h1, h2, ih (fun a ha => h a (by simp [ha]))]

/-- `inferGlobalFloatType` never produces a tag other than the two float
tags. -/
theorem inferGlobalFloatType_cases (oldJson : JSON) :
    inferGlobalFloatType oldJson = TypeID.Float32 ∨
    inferGlobalFloatType oldJson = TypeID.Float64 := by
  unfold inferGlobalFloatType
  split
  · split
    · exact Or.inl rfl
    · exact Or.inr rfl
  · exact Or.inr rfl

/-! ## Claim C2 -/

/-- Claim C2 counterexample: the metadata update of the source performs no
rename at all and writes directly into the target file, so the claimed
temp-file-and-rename protocol is violated on this concrete update. -/
theorem updateMetaData_no_rename_cex :
    atomicTempRenameProtocol "MetaData-field.json"
      (updateMetaDataOps "MetaData-field.json" c2Doc) = false ∧
    (updateMetaDataOps "MetaData-field.json" c2Doc).any
      (FSOp.isDirectWrite "MetaData-field.json") = true := by
  exact ⟨by decide, by decide⟩

/-- Claim C2 (amended): every metadata update performed by
`SerializerImpl::updateMetaData` rewrites the metadata JSON file in place,
opening the target with truncation and writing the document directly into
it; no temporary file and no rename are involved. -/
theorem updateMetaData_overwrites_in_place :
    ∀ (file : String) (doc : JSON),
      (updateMetaDataOps file doc).any (FSOp.isDirectWrite file) = true ∧
      (updateMetaDataOps file doc).all (fun op => !op.isRename) = true := by
  intro file doc
  constructor
  · simp [updateMetaDataOps, FSOp.isDirectWrite]
  · simp [updateMetaDataOps, FSOp.isRename]

/-! ## Claim C3 -/

/-- Claim C3 counterexample: a legacy document whose second fields-table
entry has `__elementtype == "float"` (so the claim demands Float32) for
which the source infers Float64, because it inspects only entry 0. -/
theorem inferGlobalFloatType_not_any_entry_cex :
    anyEntryElementtypeFloat c3LegacyDoc = true ∧
    inferGlobalFloatType c3LegacyDoc = TypeID.Float64 := by
  exact ⟨by decide, by decide⟩

/-- Claim C3 (amended): the default float tag is Float32 if and only if the
legacy `FieldsTable` is non-empty and its FIRST entry has `__elementtype`
equal to `"float"`; this tag is the one the upgrade's type-inference chain
applies to every untagged JSON float. -/
theorem inferGlobalFloatType_first_entry :
    ∀ (oldJson : JSON) (key : String) (payload : Int),
      (inferGlobalFloatType oldJson = TypeID.Float32 ↔
        firstEntryElementtypeFloat oldJson = true) ∧
      inferMetaInfoValue (inferGlobalFloatType oldJson) key (.float payload) =
        .ok (if firstEntryElementtypeFloat oldJson
             then .float32 payload else .float64 payload) := by
  intro oldJson key payload
  have hiff : inferGlobalFloatType oldJson = TypeID.Float32 ↔
      firstEntryElementtypeFloat oldJson = true := by
    cases oldJson with
    | obj kvs =>
      cases h : lookupStr kvs "FieldsTable" with
      | none =>
        simp [inferGlobalFloatType, firstEntryElementtypeFloat, hasKey, jsonGet,
          mapContains_eq_isSome, h, jsonElems]
      | some v =>
        cases v with
        | arr xs =>
          cases xs with
          | nil =>
            simp [inferGlobalFloatType, firstEntryElementtypeFloat, hasKey, jsonGet,
              mapContains_eq_isSome, h, jsonElems, jsonSize]
          | cons x rest =>
            cases hq : jsonEqString (jsonGet x "__elementtype") "float" <;>
              simp [inferGlobalFloatType, firstEntryElementtypeFloat, hasKey, jsonGet,
                mapContains_eq_isSome, h, jsonElems, jsonSize, jsonIndex, hq,
                Nat.zero_lt_succ]
        | null =>
          simp [inferGlobalFloatType, firstEntryElementtypeFloat, hasKey, jsonGet,
            mapContains_eq_isSome, h, jsonElems, jsonSize]
        | bool b =>
          simp [inferGlobalFloatType, firstEntryElementtypeFloat, hasKey, jsonGet,
            mapContains_eq_isSome, h, jsonElems, jsonSize, jsonIndex, jsonEqString]
        | int n =>
          simp [inferGlobalFloatType, firstEntryElementtypeFloat, hasKey, jsonGet,
            mapContains_eq_isSome, h, jsonElems, jsonSize, jsonIndex, jsonEqString]
        | float p =>
          simp [inferGlobalFloatType, firstEntryElementtypeFloat, hasKey, jsonGet,
            mapContains_eq_isSome, h, jsonElems, jsonSize, jsonIndex, jsonEqString]
        | str s =>
          simp [inferGlobalFloatType, firstEntryElementtypeFloat, hasKey, jsonGet,
            mapContains_eq_isSome, h, jsonElems, jsonSize, jsonIndex, jsonEqString]
        | obj kvs2 =>
          cases kvs2 with
          | nil =>
            simp [inferGlobalFloatType, firstEntryElementtypeFloat, hasKey, jsonGet,
              mapContains_eq_isSome, h, jsonElems, jsonSize]
          | cons a rest =>
            simp [inferGlobalFloatType, firstEntryElementtypeFloat, hasKey, jsonGet,
              mapContains_eq_isSome, h, jsonElems, jsonSize, jsonIndex, jsonEqString,
              Nat.zero_lt_succ]
    | null => simp [inferGlobalFloatType, firstEntryElementtypeFloat, hasKey, jsonGet, jsonElems]
    | bool b => simp [inferGlobalFloatType, firstEntryElementtypeFloat, hasKey, jsonGet, jsonElems]
    | int n => simp [inferGlobalFloatType, firstEntryElementtypeFloat, hasKey, jsonGet, jsonElems]
    | float p =>
      simp [inferGlobalFloatType, firstEntryElementtypeFloat, hasKey, jsonGet, jsonElems]
    | str s => simp [inferGlobalFloatType, firstEntryElementtypeFloat, hasKey, jsonGet, jsonElems]
    | arr xs => simp [inferGlobalFloatType, firstEntryElementtypeFloat, hasKey, jsonGet, jsonElems]
  refine ⟨hiff, ?_⟩
  by_cases hf : firstEntryElementtypeFloat oldJson = true
  · rw [hf, hiff.mpr hf]
    rfl
  · simp only [Bool.not_eq_true] at hf
    rcases inferGlobalFloatType_cases oldJson with h32 | h64
    · exact absurd (hiff.mp h32) (by simp [hf])
    · rw [hf, h64]
      rfl

/-! ## Claim C9 -/

/-- Claim C9 counterexample: the null document does not contain the
`field_map` key, yet `FieldMap::fromJSON` accepts it and yields the empty
field map (the null-or-empty early return precedes the key check). -/
theorem fromJSON_null_accepted_cex :
    hasKey JSON.null "field_map" = false ∧
    FieldMap.fromJSON c9Dec JSON.null = .ok [] := by
  exact ⟨rfl, rfl⟩

/-- Claim C9 (amended): a JSON document that is neither null nor empty and
does not contain the top-level `field_map` key fails with a schema error;
a null or empty document yields the empty field map. -/
theorem fromJSON_missing_field_map :
    ∀ (dec : JSON → Except Err FieldMetaInfo) (j : JSON),
      (jsonIsNullOrEmpty j = false → hasKey j "field_map" = false →
        FieldMap.fromJSON dec j = .error (.NodeNotFound "field_map")) ∧
      (jsonIsNullOrEmpty j = true → FieldMap.fromJSON dec j = .ok []) := by
  intro dec j
  constructor
  · intro h1 h2
    simp [FieldMap.fromJSON, h1, h2]
  · intro h1
    simp [FieldMap.fromJSON, h1]

/-- Witness for `fromJSON_missing_field_map` at the concrete non-empty
document `c9Doc` and at the null document. -/
theorem fromJSON_missing_field_map_witness :
    (jsonIsNullOrEmpty c9Doc = false ∧ hasKey c9Doc "field_map" = false ∧
      FieldMap.fromJSON c9Dec c9Doc = .error (.NodeNotFound "field_map")) ∧
    (jsonIsNullOrEmpty JSON.null = true ∧ FieldMap.fromJSON c9Dec JSON.null = .ok []) := by
  refine ⟨⟨by decide, by decide, (fromJSON_missing_field_map c9Dec c9Doc).1 (by decide) (by decide)⟩,
    by decide, (fromJSON_missing_field_map c9Dec JSON.null).2 (by decide)⟩

/-! ## Claim C10 -/

/-- Claim C10: when the legacy document and the current metadata document
both exist and the legacy one is strictly older, `upgradeMetaData` reports
no upgrade (`false`) without raising, in every open mode, and the serializer
constructor proceeds with normal construction from the current metadata. -/
theorem upgrade_skipped_when_metadata_newer :
    ∀ (mode : OpenModeKind) (env : UpgradeEnv),
      env.oldFileExists = true → env.metaDataFileExists = true →
      env.oldFileTime < env.metaDataFileTime →
      upgradeMetaData mode env = .ok (false, none) ∧
      serializerConstructPath mode env = .ok .fromJson := by
  intro mode env h1 h2 h3
  have hu : upgradeMetaData mode env = .ok (false, none) := by
    simp [upgradeMetaData, h1, h2, h3]
  exact ⟨hu, by simp [serializerConstructPath, hu]⟩

/-- Witness for `upgrade_skipped_when_metadata_newer` at Write mode and the
concrete environment `c10Env`. -/
theorem upgrade_skipped_when_metadata_newer_witness :
    upgradeMetaData .Write c10Env = .ok (false, none) ∧
    serializerConstructPath .Write c10Env = .ok .fromJson :=
  upgrade_skipped_when_metadata_newer .Write c10Env (by decide) (by decide) (by decide)

/-! ## Claim C6 -/

/-- Claim C6: a legacy upgrade happens only in Read mode; a legacy archive
that requires upgrading and is opened in Write or Append mode fails with the
upgrade-read-only error; and the result of a successful upgrade does not
depend on whether the best-effort persist of the upgraded document set
succeeds (the persist failure is caught and logged). -/
theorem upgrade_read_only_and_persist_nonfatal :
    ∀ (mode : OpenModeKind) (env : UpgradeEnv),
      (∀ r, upgradeMetaData mode env = .ok (true, r) → mode = .Read) ∧
      (env.oldFileExists = true →
        (env.metaDataFileExists && decide (env.oldFileTime < env.metaDataFileTime)) = false →
        mode ≠ .Read →
        upgradeMetaData mode env = .error .UpgradeReadOnly) ∧
      (∀ b, upgradeMetaData mode env =
        upgradeMetaData mode
          ⟨env.oldFileExists, env.metaDataFileExists, env.oldFileTime,
           env.metaDataFileTime, env.oldJson, b⟩) := by
  intro mode env
  refine ⟨?_, ?_, ?_⟩
  · intro r h
    by_cases h1 : env.oldFileExists = true
    · by_cases h2 : (env.metaDataFileExists &&
          decide (env.oldFileTime < env.metaDataFileTime)) = true
      · simp [upgradeMetaData, h1, h2] at h
      · by_cases h3 : mode = .Read
        · exact h3
        · rw [upgradeMetaData] at h
          rw [if_neg (by simp [h1]), if_neg (by simp [h2])] at h
          rw [if_pos (by simp [h3])] at h
          exact absurd h (by simp)
    · simp only [Bool.not_eq_true] at h1
      simp [upgradeMetaData, h1] at h
  · intro h1 h2 h3
    rw [upgradeMetaData]
    rw [if_neg (by simp [h1]), if_neg (by simp [h2]), if_pos (by simp [h3])]
  · intro b
    rfl

/-- Witness for `upgrade_read_only_and_persist_nonfatal`: a Read-mode
upgrade on `c6Env` does report an upgrade (so the first part applies), the
Write-mode open fails with the upgrade-read-only error, and the Read-mode
result is identical whether or not the persist succeeds. -/
theorem upgrade_read_only_and_persist_nonfatal_witness :
    OpenModeKind.Read = OpenModeKind.Read ∧
    upgradeMetaData .Write c6Env = .error .UpgradeReadOnly ∧
    upgradeMetaData .Read c6Env = upgradeMetaData .Read c6EnvNoPersist := by
  refine ⟨(upgrade_read_only_and_persist_nonfatal .Read c6Env).1
      (some ⟨[], [], ⟨[], []⟩, []⟩) rfl,
    (upgrade_read_only_and_persist_nonfatal .Write c6Env).2.1 (by decide) (by decide) (by decide),
    (upgrade_read_only_and_persist_nonfatal .Read c6Env).2.2 false⟩

/-! ## Claim C7 -/

/-- Claim C7: `SerializerImpl::read` rejects non-Read modes with the
not-readable error; otherwise, once the storage view passes the checks, a
savepoint missing from the savepoint vector raises savepoint-not-found, a
savepoint without a recorded identifier for the field raises
field-not-at-savepoint, and otherwise the archive read is invoked with the
recorded field identifier. -/
theorem read_error_conditions :
    ∀ (s : SerializerImpl) (name : String) (sp : SavepointImpl) (view : StorageView),
      (s.mode ≠ .Read → s.read name sp view = .error .SerializerNotReadable) ∧
      (s.mode = .Read → checkStorageView s name view = none →
        ((SavepointVector.find s.savepointVector sp = none →
           s.read name sp view = .error .SavepointNotFound) ∧
         (∀ idx, SavepointVector.find s.savepointVector sp = some idx →
           (SavepointVector.getFieldID s.savepointVector idx name = none →
             s.read name sp view = .error .FieldNotAtSavepoint) ∧
           (∀ fid, SavepointVector.getFieldID s.savepointVector idx name = some fid →
             s.read name sp view = .ok fid)))) := by
  intro s name sp view
  constructor
  · intro h
    simp [SerializerImpl.read, h]
  · intro hmode hview
    refine ⟨?_, ?_⟩
    · intro hfind
      simp [SerializerImpl.read, hmode, hview, hfind]
    · intro idx hfind
      refine ⟨?_, ?_⟩
      · intro hfid
        simp [SerializerImpl.read, hmode, hview, hfind, hfid]
      · intro fid hfid
        simp [SerializerImpl.read, hmode, hview, hfind, hfid]

/-- Witness for `read_error_conditions` at concrete serializers: a Write-mode
serializer rejects reads, `c7Serializer` raises savepoint-not-found for the
missing savepoint `s3`, field-not-at-savepoint for field `f` at `s2`, and
delegates with the recorded identifier for `f` at `s1`. -/
theorem read_error_conditions_witness :
    c1Serializer.read "f" c1Savepoint c1View = .error .SerializerNotReadable ∧
    c7Serializer.read "f" c7Missing c1View = .error .SavepointNotFound ∧
    c7Serializer.read "f" ⟨"s2", []⟩ c1View = .error .FieldNotAtSavepoint ∧
    c7Serializer.read "f" ⟨"s1", []⟩ c1View = .ok ⟨"f", 3⟩ := by
  refine ⟨(read_error_conditions c1Serializer "f" c1Savepoint c1View).1 (by decide),
    ((read_error_conditions c7Serializer "f" c7Missing c1View).2 (by decide) (by decide)).1
      (by decide),
    (((read_error_conditions c7Serializer "f" ⟨"s2", []⟩ c1View).2 (by decide) (by decide)).2
      1 (by decide)).1 (by decide),
    (((read_error_conditions c7Serializer "f" ⟨"s1", []⟩ c1View).2 (by decide) (by decide)).2
      0 (by decide)).2 ⟨"f", 3⟩ (by decide)⟩

/-! ## Claim C5 -/

/-- Claim C5: the top-level metadata document carries
`serialbox_version = 100*major + 10*minor + patch` together with the
`prefix`, `global_meta_info`, `savepoint_vector` and `field_map` nodes
(object members in the sorted order `nlohmann::json` keeps them in); and
parsing fails when the `serialbox_version` node is missing, when the stored
version does not satisfy the library's compatibility predicate, and when the
stored prefix differs from the expected one. -/
theorem metadata_document_and_parse_gates :
    ∀ (major minor patch : Int) (pfx : String) (g sv fm : JSON)
      (versionMatch : Int → Bool) (doc : JSON),
      SerializerImpl.toJSON major minor patch pfx g sv fm =
        .obj [("field_map", fm), ("global_meta_info", g), ("prefix", .str pfx),
              ("savepoint_vector", sv),
              ("serialbox_version", .int (100 * major + 10 * minor + patch))] ∧
      (hasKey doc "serialbox_version" = false →
        constructMetaDataFromJson versionMatch pfx doc =
          .error (.NodeNotFound "serialbox_version")) ∧
      (∀ v, hasKey doc "serialbox_version" = true →
        jsonGet doc "serialbox_version" = .int v →
        versionMatch v = false →
        constructMetaDataFromJson versionMatch pfx doc = .error .VersionMismatch) ∧
      (∀ v q, hasKey doc "serialbox_version" = true →
        jsonGet doc "serialbox_version" = .int v → versionMatch v = true →
        hasKey doc "prefix" = true → jsonGet doc "prefix" = .str q → q ≠ pfx →
        constructMetaDataFromJson versionMatch pfx doc = .error .PrefixMismatch) := by
  intro major minor patch pfx g sv fm versionMatch doc
  refine ⟨rfl, ?_, ?_, ?_⟩
  · intro h
    simp [constructMetaDataFromJson, h]
  · intro v h1 h2 h3
    simp [constructMetaDataFromJson, h1, h2, h3, jsonAsInt]
  · intro v q h1 h2 h3 h4 h5 h6
    have hq : jsonEqString (jsonGet doc "prefix") pfx = false := by
      rw [h5]
      exact beq_eq_false_iff_ne.mpr h6
    simp [constructMetaDataFromJson, h1, h2, h3, h4, hq, jsonAsInt]

/-- Witness for `metadata_document_and_parse_gates` at version constants
(2, 1, 2), concrete documents missing the version node, carrying the
incompatible version 1, and carrying a mismatching prefix. -/
theorem metadata_document_and_parse_gates_witness :
    SerializerImpl.toJSON 2 1 2 "p" .null .null .null =
      .obj [("field_map", .null), ("global_meta_info", .null), ("prefix", .str "p"),
            ("savepoint_vector", .null), ("serialbox_version", .int 212)] ∧
    constructMetaDataFromJson c5VersionMatch "p" c5DocNoVersion =
      .error (.NodeNotFound "serialbox_version") ∧
    constructMetaDataFromJson c5VersionMatch "p" c5DocBadVersion = .error .VersionMismatch ∧
    constructMetaDataFromJson c5VersionMatch "p" c5DocBadPrefix = .error .PrefixMismatch := by
  refine ⟨?_, ?_, ?_, ?_⟩
  · have h := (metadata_document_and_parse_gates 2 1 2 "p" .null .null .null
      c5VersionMatch .null).1
    rw [h]
    rfl
  · exact (metadata_document_and_parse_gates 2 1 2 "p" .null .null .null
      c5VersionMatch c5DocNoVersion).2.1 (by decide)
  · exact (metadata_document_and_parse_gates 2 1 2 "p" .null .null .null
      c5VersionMatch c5DocBadVersion).2.2.1 1 (by decide) rfl (by decide)
  · exact (metadata_document_and_parse_gates 2 1 2 "p" .null .null .null
      c5VersionMatch c5DocBadPrefix).2.2.2 212 "q" (by decide) rfl (by decide) (by decide)
      rfl (by decide)

/-! ## Claim C1 -/

/-- Claim C1 counterexample: on `c1Serializer` (Write mode, field `f`
registered, no savepoints) with a failing metadata-file write, the write
raises the wrapped I/O error, yet the in-memory state now differs from the
state before the call: the savepoint was inserted and the field recorded. -/
theorem write_metadata_failure_mutates_state_cex :
    (c1Serializer.write c1Env "f" c1Savepoint c1View).2 = some .IOError ∧
    (c1Serializer.write c1Env "f" c1Savepoint c1View).1 ≠ c1Serializer := by
  exact ⟨rfl, by decide⟩

/-- Claim C1 (amended): the errors `write` raises before invoking the
archive — mode rejection, the storage-view checks, and the duplicate-field
check (which can only fire on a savepoint that already existed, hence after
no insertion) — leave the serializer state exactly as it was; but an archive
failure occurring after the savepoint was newly registered leaves that
savepoint inserted (and a metadata-file failure additionally leaves the field
recorded and the archive mutated, as the counterexample exhibits). -/
theorem write_early_errors_preserve_state :
    ∀ (s : SerializerImpl) (env : WriteEnv) (name : String) (sp : SavepointImpl)
      (view : StorageView),
      (s.mode = .Read → s.write env name sp view = (s, some .SerializerNotWritable)) ∧
      (∀ e, s.mode ≠ .Read → checkStorageView s name view = some e →
        s.write env name sp view = (s, some e)) ∧
      (∀ idx, s.mode ≠ .Read → checkStorageView s name view = none →
        SavepointVector.find s.savepointVector sp = some idx →
        SavepointVector.hasField s.savepointVector idx name = true →
        s.write env name sp view = (s, some .FieldAlreadyAtSavepoint)) ∧
      (∀ e, s.mode ≠ .Read → checkStorageView s name view = none →
        SavepointVector.find s.savepointVector sp = none →
        s.savepointVector.fields.length = s.savepointVector.savepoints.length →
        env.archiveWrite s.archive name view = .error e →
        s.write env name sp view =
          (⟨s.mode, s.globalMetaInfo, s.fieldMap,
            (SavepointVector.insert s.savepointVector sp).2, s.archive⟩, some e)) := by
  intro s env name sp view
  refine ⟨?_, ?_, ?_, ?_⟩
  · intro h
    simp [SerializerImpl.write, h]
  · intro e h1 h2
    simp [SerializerImpl.write, h1, h2]
  · intro idx h1 h2 h3 h4
    simp [SerializerImpl.write, writeSteps3to6, h1, h2, h3, h4]
  · intro e h1 h2 h3 hwf h5
    have hlen : ((SavepointVector.insert s.savepointVector sp).2).fields[
        (SavepointVector.insert s.savepointVector sp).1]? = some [] := by
      simp [SavepointVector.insert, List.getElem?_append_right, hwf]
    simp only [SerializerImpl.write, writeSteps3to6, h1, h2, h3]
    rw [if_neg (by simp [h1])]
    simp only [SavepointVector.hasField]
    simp [hlen, h5]

/-- Witness for `write_early_errors_preserve_state`: the four kinds of
errors exercised on concrete serializers — Read-mode rejection, type
mismatch, duplicate field at an existing savepoint, and an archive failure
after a fresh savepoint registration (which leaves the savepoint inserted). -/
theorem write_early_errors_preserve_state_witness :
    c7Serializer.write c1Env "f" c1Savepoint c1View =
      (c7Serializer, some .SerializerNotWritable) ∧
    c1Serializer.write c1Env "f" c1Savepoint c1ViewBad = (c1Serializer, some .TypeMismatch) ∧
    c1SerializerDup.write c1Env "f" c1Savepoint c1View =
      (c1SerializerDup, some .FieldAlreadyAtSavepoint) ∧
    c1Serializer.write c1EnvFail "f" c1Savepoint c1View =
      (⟨c1Serializer.mode, c1Serializer.globalMetaInfo, c1Serializer.fieldMap,
        (SavepointVector.insert c1Serializer.savepointVector c1Savepoint).2,
        c1Serializer.archive⟩, some .IOError) := by
  refine ⟨(write_early_errors_preserve_state c7Serializer c1Env "f" c1Savepoint c1View).1 rfl,
    (write_early_errors_preserve_state c1Serializer c1Env "f" c1Savepoint c1ViewBad).2.1
      .TypeMismatch (by decide) (by decide),
    (write_early_errors_preserve_state c1SerializerDup c1Env "f" c1Savepoint c1View).2.2.1
      0 (by decide) (by decide) (by decide) (by decide),
    (write_early_errors_preserve_state c1Serializer c1EnvFail "f" c1Savepoint c1View).2.2.2
      .IOError (by decide) (by decide) (by decide) (by decide) rfl⟩

/-! ## Claim C4 -/

theorem jsonAsString_ok {j : JSON} {s : String} (h : jsonAsString j = .ok s) : j = .str s := by
  cases j <;> simp_all [jsonAsString]

/-- The field-metainfo loop inserts exactly the keys of the entry, in order:
no filtering takes place. -/
theorem insertFieldMetaInfo_keys (floatType : TypeID) :
    ∀ (kvs : List (String × JSON)) (m meta : MetaInfoMap),
      insertFieldMetaInfo floatType m kvs = .ok meta →
      (∀ a ∈ m, ∀ b ∈ kvs, a.1 ≠ b.1) →
      (kvs.map Prod.fst).Nodup →
      meta.map Prod.fst = m.map Prod.fst ++ kvs.map Prod.fst := by
  intro kvs
  induction kvs with
  | nil =>
    intro m meta h _ _
    rw [insertFieldMetaInfo] at h
    cases h
    simp
  | cons kv rest ih =>
    intro m meta h hdisj hnodup
    obtain ⟨k, v⟩ := kv
    rw [insertFieldMetaInfo] at h
    cases hv : inferMetaInfoValue floatType k v with
    | error e => simp [hv] at h
    | ok mv =>
      simp only [hv] at h
      have hc : MetaInfoMap.insertVal m k mv = m ++ [(k, mv)] := by
        rw [MetaInfoMap.insertVal, MetaInfoMap.insert,
          mapContains_eq_false m k (fun a ha => hdisj a ha (k, v) (by simp))]
        rfl
      rw [hc] at h
      have hnodup2 : (rest.map Prod.fst).Nodup := (List.nodup_cons.mp (by simpa using hnodup)).2
      have hknotin : k ∉ rest.map Prod.fst := (List.nodup_cons.mp (by simpa using hnodup)).1
      have hdisj2 : ∀ a ∈ m ++ [(k, mv)], ∀ b ∈ rest, a.1 ≠ b.1 := by
        intro a ha b hb
        rcases List.mem_append.mp ha with hin | hin
        · exact hdisj a hin b (by simp [hb])
        · have heq : a = (k, mv) := by simpa using hin
          subst heq
          intro he
          apply hknotin
          rw [show k = b.1 from he]
          exact List.mem_map_of_mem Prod.fst hb
      have hrec := ih (m ++ [(k, mv)]) meta h hdisj2 hnodup2
      rw [hrec]
      simp

/-- Claim C4 counterexample: on a legacy entry with only reserved keys the
claim expects an empty field-local metainfo, but the upgrade inserts every
key, reserved ones included. -/
theorem upgradeFieldEntry_inserts_reserved_cex :
    upgradeFieldEntry TypeID.Float64 c4Entry =
      .ok ("u", TypeID.Float64, [2, 2, 1],
        [("__elementtype", .str "double"), ("__isize", .int32 2), ("__jsize", .int32 2),
         ("__ksize", .int32 1), ("__name", .str "u")]) ∧
    MetaInfoMap.contains
      [(("__elementtype" : String), MetaInfoValue.str "double"), ("__isize", .int32 2),
       ("__jsize", .int32 2), ("__ksize", .int32 1), ("__name", .str "u")] "__name" = true := by
  exact ⟨rfl, by decide⟩

/-- Claim C4 (amended): each legacy fields-table entry is registered with
the element type translated from `__elementtype` (int→Int32, float→Float32,
double→Float64, default Float64), dims taken from `__isize`, `__jsize`,
`__ksize` and optionally `__lsize`, and a field-local metainfo map containing
ALL keys of the entry — the reserved name, element-type and size keys
included — with tags inferred from their JSON values. -/
theorem upgradeFieldEntry_full_metainfo :
    ∀ (floatType : TypeID) (fieldInfo : JSON) (name : String) (ty : TypeID)
      (dims : List Int) (meta : MetaInfoMap),
      upgradeFieldEntry floatType fieldInfo = .ok (name, ty, dims, meta) →
      ((jsonEntries fieldInfo).map Prod.fst).Nodup →
      meta.map Prod.fst = (jsonEntries fieldInfo).map Prod.fst ∧
      (∃ et, jsonGet fieldInfo "__elementtype" = .str et ∧ ty = translateElementType et) ∧
      (∃ a b c, jsonAsInt (jsonGet fieldInfo "__isize") = .ok a ∧
        jsonAsInt (jsonGet fieldInfo "__jsize") = .ok b ∧
        jsonAsInt (jsonGet fieldInfo "__ksize") = .ok c ∧
        ((hasKey fieldInfo "__lsize" = false ∧ dims = [a, b, c]) ∨
         (∃ d, hasKey fieldInfo "__lsize" = true ∧
            jsonAsInt (jsonGet fieldInfo "__lsize") = .ok d ∧ dims = [a, b, c, d]))) := by
  intro floatType fieldInfo name ty dims meta h hnodup
  cases h1 : jsonAsString (jsonGet fieldInfo "__name") with
  | error e => simp [upgradeFieldEntry, h1] at h
  | ok nm =>
  cases h2 : jsonAsString (jsonGet fieldInfo "__elementtype") with
  | error e => simp [upgradeFieldEntry, h1, h2] at h
  | ok et =>
  cases h3 : jsonAsInt (jsonGet fieldInfo "__isize") with
  | error e => simp [upgradeFieldEntry, h1, h2, h3] at h
  | ok a =>
  cases h4 : jsonAsInt (jsonGet fieldInfo "__jsize") with
  | error e => simp [upgradeFieldEntry, h1, h2, h3, h4] at h
  | ok b =>
  cases h5 : jsonAsInt (jsonGet fieldInfo "__ksize") with
  | error e => simp [upgradeFieldEntry, h1, h2, h3, h4, h5] at h
  | ok c =>
  cases h7 : insertFieldMetaInfo floatType [] (jsonEntries fieldInfo) with
  | error e =>
    by_cases hl : hasKey fieldInfo "__lsize" = true
    · cases h6 : jsonAsInt (jsonGet fieldInfo "__lsize") with
      | error e2 => simp [upgradeFieldEntry, h1, h2, h3, h4, h5, hl, h6, h7] at h
      | ok d => simp [upgradeFieldEntry, h1, h2, h3, h4, h5, hl, h6, h7] at h
    · simp [upgradeFieldEntry, h1, h2, h3, h4, h5, hl, h7] at h
  | ok mm =>
    have hkeys : mm.map Prod.fst = (jsonEntries fieldInfo).map Prod.fst := by
      simpa using insertFieldMetaInfo_keys floatType (jsonEntries fieldInfo) []
        mm h7 (by simp) hnodup
    by_cases hl : hasKey fieldInfo "__lsize" = true
    · cases h6 : jsonAsInt (jsonGet fieldInfo "__lsize") with
      | error e => simp [upgradeFieldEntry, h1, h2, h3, h4, h5, hl, h6, h7] at h
      | ok d =>
        simp only [upgradeFieldEntry, h1, h2, h3, h4, h5, hl, if_true, h6, h7,
          Except.ok.injEq, Prod.mk.injEq] at h
        obtain ⟨hn, hty, hdims, hmeta⟩ := h
        subst hty hdims hmeta
        exact ⟨hkeys, ⟨et, jsonAsString_ok h2, rfl⟩,
          ⟨a, b, c, rfl, rfl, rfl, Or.inr ⟨d, hl, rfl, rfl⟩⟩⟩
    · have hl2 : hasKey fieldInfo "__lsize" = false := by simpa using hl
      simp only [upgradeFieldEntry, h1, h2, h3, h4, h5, hl2, Bool.false_eq_true, if_false, h7,
        Except.ok.injEq, Prod.mk.injEq] at h
      obtain ⟨hn, hty, hdims, hmeta⟩ := h
      subst hty hdims hmeta
      exact ⟨hkeys, ⟨et, jsonAsString_ok h2, rfl⟩,
        ⟨a, b, c, rfl, rfl, rfl, Or.inl ⟨hl2, rfl⟩⟩⟩

/-- Witness for `upgradeFieldEntry_full_metainfo` at the concrete entry
`c4Entry`. -/
theorem upgradeFieldEntry_full_metainfo_witness :
    ([(("__elementtype" : String), MetaInfoValue.str "double"), ("__isize", .int32 2),
      ("__jsize", .int32 2), ("__ksize", .int32 1),
      ("__name", .str "u")].map Prod.fst = (jsonEntries c4Entry).map Prod.fst) ∧
    (∃ et, jsonGet c4Entry "__elementtype" = .str et ∧
      TypeID.Float64 = translateElementType et) := by
  have h := upgradeFieldEntry_full_metainfo TypeID.Float64 c4Entry "u" TypeID.Float64
    [2, 2, 1]
    [("__elementtype", .str "double"), ("__isize", .int32 2), ("__jsize", .int32 2),
     ("__ksize", .int32 1), ("__name", .str "u")]
    rfl (by decide)
  exact ⟨h.1, h.2.1⟩

/-! ## Claim C8 -/

/-- The `toJSON` fold grows the `field_map` object by appending, as long as
the remaining keys dominate the already serialized ones. -/
theorem fieldMap_toJSON_fold (enc : FieldMetaInfo → JSON) :
    ∀ (m : FieldMap) (es : List (String × JSON)),
      (∀ a ∈ es, ∀ b ∈ m, strLt a.1 b.1 = true) →
      List.Pairwise (fun a b => strLt a.1 b.1 = true) m →
      List.foldl (FieldMap.toJSONStep enc) (.obj [("field_map", .obj es)]) m =
        .obj [("field_map", .obj (es ++ m.map (fun kv => (kv.1, enc kv.2))))] := by
  intro m
  induction m with
  | nil =>
    intro es _ _
    simp
  | cons kv rest ih =>
    intro es hlt hpair
    rw [List.foldl_cons]
    have hset : jsonSet (JSON.obj es) kv.1 (enc kv.2) =
        JSON.obj (es ++ [(kv.1, enc kv.2)]) := by
      simp only [jsonSet]
      rw [mapInsertSorted_append es kv.1 (enc kv.2) (fun a ha => hlt a ha kv (by simp))]
    have hstep : FieldMap.toJSONStep enc (JSON.obj [("field_map", JSON.obj es)]) kv =
        JSON.obj [("field_map", JSON.obj (es ++ [(kv.1, enc kv.2)]))] := by
      rw [FieldMap.toJSONStep]
      have hget : jsonGet (JSON.obj [("field_map", JSON.obj es)]) "field_map" =
          JSON.obj es := rfl
      rw [hget, hset]
      rfl
    rw [hstep]
    rw [ih (es ++ [(kv.1, enc kv.2)]) ?hdom (List.pairwise_cons.mp hpair).2]
    · simp
    case hdom =>
      intro a ha b hb
      rcases List.mem_append.mp ha with hin | hin
      · exact hlt a hin b (by simp [hb])
      · have heq : a = (kv.1, enc kv.2) := by simpa using hin
        subst heq
        exact (List.pairwise_cons.mp hpair).1 b hb

/-- The insertion loop of `fromJSON` rebuilds exactly the serialized fields
when the decoder inverts the encoder on them. -/
theorem fieldMap_insertAll_roundtrip (enc : FieldMetaInfo → JSON)
    (dec : JSON → Except Err FieldMetaInfo) :
    ∀ (m acc : FieldMap),
      (∀ kv ∈ m, dec (enc kv.2) = .ok kv.2) →
      List.Pairwise (fun a b => strLt a.1 b.1 = true) (acc ++ m) →
      FieldMap.insertAll dec acc (m.map (fun kv => (kv.1, enc kv.2))) = .ok (acc ++ m) := by
  intro m
  induction m with
  | nil =>
    intro acc _ _
    simp [FieldMap.insertAll]
  | cons kv rest ih =>
    intro acc hdec hpair
    obtain ⟨k, fi⟩ := kv
    simp only [List.map_cons]
    rw [FieldMap.insertAll]
    rw [hdec (k, fi) (by simp)]
    have hacc_lt : ∀ a ∈ acc, strLt a.1 k = true := by
      intro a ha
      exact (List.pairwise_append.mp hpair).2.2 a ha (k, fi) (by simp)
    have hcontains : mapContains acc k = false :=
      mapContains_eq_false acc k (fun a ha => strLt_ne (hacc_lt a ha))
    simp only [FieldMap.insertFM, hcontains, Bool.false_eq_true, if_false]
    rw [mapInsertSorted_append acc k fi hacc_lt]
    have hpair2 : List.Pairwise (fun a b => strLt a.1 b.1 = true) ((acc ++ [(k, fi)]) ++ rest) := by
      rw [List.append_assoc, List.singleton_append]
      exact hpair
    rw [ih (acc ++ [(k, fi)]) (fun a ha => hdec a (by simp [ha])) hpair2]
    rw [List.append_assoc, List.singleton_append]

/-- Claim C8: for every field map whose keys are in the strictly sorted
order the backing `std::map` maintains, and whichever field-metainfo decoder
inverts the field-metainfo encoder on its records, `fromJSON` after `toJSON`
reconstructs a structurally equal field map — the empty map included — and a
non-empty map serializes each field's metainfo under the top-level
`field_map` key by field name. -/
theorem fieldMap_roundtrip :
    ∀ (enc : FieldMetaInfo → JSON) (dec : JSON → Except Err FieldMetaInfo) (m : FieldMap),
      (∀ kv ∈ m, dec (enc kv.2) = .ok kv.2) →
      List.Pairwise (fun a b => strLt a.1 b.1 = true) m →
      FieldMap.fromJSON dec (FieldMap.toJSON enc m) = .ok m ∧
      (m ≠ [] → FieldMap.toJSON enc m =
        .obj [("field_map", .obj (m.map (fun kv => (kv.1, enc kv.2))))]) := by
  intro enc dec m hdec hpair
  cases m with
  | nil => exact ⟨rfl, fun hne => absurd rfl hne⟩
  | cons kv rest =>
    have htj : FieldMap.toJSON enc (kv :: rest) =
        .obj [("field_map", .obj ((kv :: rest).map (fun kv => (kv.1, enc kv.2))))] := by
      rw [FieldMap.toJSON, List.foldl_cons]
      have hfirst : FieldMap.toJSONStep enc .null kv =
          JSON.obj [("field_map", JSON.obj [(kv.1, enc kv.2)])] := rfl
      rw [hfirst]
      rw [fieldMap_toJSON_fold enc rest [(kv.1, enc kv.2)] ?hdom
        (List.pairwise_cons.mp hpair).2]
      · simp
      case hdom =>
        intro a ha b hb
        have heq : a = (kv.1, enc kv.2) := by simpa using ha
        subst heq
        exact (List.pairwise_cons.mp hpair).1 b hb
    refine ⟨?_, fun _ => htj⟩
    rw [htj, FieldMap.fromJSON]
    have h1 : jsonIsNullOrEmpty
        (JSON.obj [("field_map",
          JSON.obj ((kv :: rest).map (fun kv => (kv.1, enc kv.2))))]) = false := rfl
    have h2 : hasKey
        (JSON.obj [("field_map",
          JSON.obj ((kv :: rest).map (fun kv => (kv.1, enc kv.2))))]) "field_map" = true := by
      simp [hasKey, mapContains]
    rw [h1, h2]
    simp only [Bool.false_eq_true, if_false, Bool.not_true, Bool.true_eq_false]
    have h3 : jsonEntries (jsonGet
        (JSON.obj [("field_map",
          JSON.obj ((kv :: rest).map (fun kv => (kv.1, enc kv.2))))]) "field_map") =
        (kv :: rest).map (fun kv => (kv.1, enc kv.2)) := rfl
    rw [h3]
    simpa using fieldMap_insertAll_roundtrip enc dec (kv :: rest) [] hdec (by simpa using hpair)

/-- Witness for `fieldMap_roundtrip` at the concrete two-field map `c8Map`
with the concrete encoder/decoder pair `c8Enc`/`c8Dec`. -/
theorem fieldMap_roundtrip_witness :
    (∀ kv ∈ c8Map, c8Dec (c8Enc kv.2) = .ok kv.2) ∧
    List.Pairwise (fun a b => strLt a.1 b.1 = true) c8Map ∧
    FieldMap.fromJSON c8Dec (FieldMap.toJSON c8Enc c8Map) = .ok c8Map ∧
    FieldMap.toJSON c8Enc c8Map =
      .obj [("field_map", .obj (c8Map.map (fun kv => (kv.1, c8Enc kv.2))))] := by
  have hdec : ∀ kv ∈ c8Map, c8Dec (c8Enc kv.2) = .ok kv.2 := by
    intro kv hkv
    rcases (by simpa [c8Map] using hkv : kv = ("u", c8FmU) ∨ kv = ("v", c8FmV)) with h | h <;>
      subst h <;> rfl
  have h := fieldMap_roundtrip c8Enc c8Dec c8Map hdec (by decide)
  exact ⟨hdec, by decide, h.1, h.2 (by decide)⟩

end Serialbox
